import Mathlib

/-!
# go-kong: routes and the limit-key-quota credential service

A shallow embedding of `kong/route.go` and `kong/limit_key_quota_service.go`.

* Go pointers (`*string`, `*bool`, `*int`, `*Service`, `*ListOpt`) are `Option`s,
  `none` standing for `nil`.
* Go slices are `Slice`s: the nil slice is kept apart from an empty one.
* Go's `(value, error)` results are tuples whose error component is an
  `Option`, `none` standing for a nil error.
* The HTTP client and the JSON codec are collaborators outside the two files;
  they are parameters of the embedding, and every call made to the client is
  recorded in a trace.
* The request context `ctx` is handed to the client as it is in every call; it
  is part of the state behind the client.
* `ListAll` loops until the server stops returning a cursor; its embedding
  takes a bound on the number of iterations and answers `none` when the bound
  is used up.
-/

/-! ## Go slices -/

/-- A Go slice value: the nil slice, or a slice backed by a sequence of elements. -/
inductive Slice (α : Type) where
  | nil : Slice α
  | of : List α → Slice α
  deriving DecidableEq, Repr

/-- The elements of a slice, in order; the nil slice has none. -/
def Slice.toList {α : Type} : Slice α → List α
  | .nil => []
  | .of xs => xs

/-- Go's `len(s)`. -/
def Slice.len {α : Type} (s : Slice α) : Nat := s.toList.length

/-- Go's `append(s, ys...)`: with nothing to add the slice itself comes back
(so a nil slice stays nil), otherwise the result is backed by the old elements
followed by the new ones. -/
def Slice.append {α : Type} (s : Slice α) (ys : List α) : Slice α :=
  match ys with
  | [] => s
  | y :: rest => .of (s.toList ++ y :: rest)

/-! ## `kong/route.go` -/

/-- The part of `Service` that `route.go` reads. The declaration of `Service`
is in another file of the package; only its `ID` field is used here. -/
structure Service where
  ID : Option String
  deriving DecidableEq, Repr

/-- The `Route` struct. `*int` fields are unbounded integers: no arithmetic is
done on them. -/
structure Route where
  CreatedAt : Option Int
  Hosts : Slice (Option String)
  ID : Option String
  Methods : Slice (Option String)
  Paths : Slice (Option String)
  PreserveHost : Option Bool
  Protocols : Slice (Option String)
  RegexPriority : Option Int
  Service : Option Service
  StripPath : Option Bool
  UpdatedAt : Option Int
  deriving DecidableEq, Repr

/-- The method `Route.Valid`. -/
def Route.Valid (r : Route) : Bool :=
  if r.Methods.len == 0 && r.Paths.len == 0 && r.Hosts.len == 0 then
    false
  else
    true

/-- A `bytes.Buffer` holding text: its contents so far. -/
abbrev Buffer := String

/-- The method `Buffer.WriteByte`. -/
def Buffer.WriteByte (buf : Buffer) (c : Char) : Buffer := buf.push c

/-- The method `Buffer.WriteString`. -/
def Buffer.WriteString (buf : Buffer) (s : String) : Buffer := buf ++ s

/-- The library function `strconv.FormatBool`. -/
def strconv.FormatBool (b : Bool) : String := if b then "true" else "false"

/-- The library function `strconv.Itoa`: base-10 digits, with a leading minus sign for
a negative number. -/
def strconv.Itoa (i : Int) : String :=
  match i with
  | .ofNat n => Nat.repr n
  | .negSucc n => "-" ++ Nat.repr (n + 1)

/-- The method `Route.String`, statement by statement. The helper
`stringArrayToString` is declared in another file of the package and is a
parameter here. It receives a slice of pointers, and a call of it that panics
(a nil element dereferenced, say) answers `none`; the panic ends `String` too,
so `String` answers `none` as well. -/
def Route.String (stringArrayToString : Slice (Option String) → Option String) (r : Route) :
    Option String :=
  let buf : Buffer := ""
  let buf := buf.WriteByte '['
  let buf := buf.WriteByte ' '
  let buf :=
    match r.ID with
    | none => buf.WriteString "nil"
    | some id => buf.WriteString id
  let buf := buf.WriteByte ' '
  match stringArrayToString r.Methods with
  | none => none
  | some methods =>
    let buf := buf.WriteString methods
    let buf := buf.WriteByte ' '
    match stringArrayToString r.Hosts with
    | none => none
    | some hosts =>
      let buf := buf.WriteString hosts
      let buf := buf.WriteByte ' '
      match stringArrayToString r.Paths with
      | none => none
      | some paths =>
        let buf := buf.WriteString paths
        let buf := buf.WriteByte ' '
        let buf :=
          match r.PreserveHost with
          | none => buf.WriteString "nil"
          | some b => buf.WriteString (strconv.FormatBool b)
        let buf := buf.WriteByte ' '
        let buf :=
          match r.StripPath with
          | none => buf.WriteString "nil"
          | some b => buf.WriteString (strconv.FormatBool b)
        let buf := buf.WriteByte ' '
        let buf :=
          match r.RegexPriority with
          | none => buf.WriteString "nil"
          | some n => buf.WriteString (strconv.Itoa n)
        let buf := buf.WriteByte ' '
        let buf :=
          match r.Service with
          | none => buf.WriteString "nil"
          | some svc =>
            match svc.ID with
            | none => buf.WriteString "nil"
            | some id => buf.WriteString id
        let buf := buf.WriteByte ' '
        let buf := buf.WriteByte ']'
        some buf

/-! ## Collaborators of `kong/limit_key_quota_service.go`

The service reaches the server through `s.client.list` and
`s.client.credentials`, and decodes with `encoding/json`. None of the three is
in the two files; each is a parameter. `σ` is the state of the world behind the
client (server, network, request context), `τ` the type of continuation tokens,
`Raw` is `json.RawMessage`, `LKQ` the `LimitKeyQuota` struct and `Err` the
non-nil values of Go's `error`. -/

/-- Modelled from the spec: the declaration of `ListOpt` is in another file of
the package. The spec describes it as a continuation token plus a requested
page size; the token type is left open. -/
structure ListOpt (τ : Type) where
  Size : Int
  Offset : τ
  deriving DecidableEq, Repr

/-- The composite literal `&ListOpt{Size: size}`: every other field has its
zero value. -/
def ListOpt.ofSize {τ : Type} [Inhabited τ] (size : Int) : ListOpt τ :=
  { Size := size, Offset := default }

/-- What `client.list` returns: `(data, next, err)`. -/
structure ListResp (τ Raw Err : Type) where
  data : List Raw
  next : Option (ListOpt τ)
  err : Option Err
  deriving DecidableEq, Repr

/-- What a call of the credentials helper returns: `(json.RawMessage, error)`. -/
structure CredResp (Raw Err : Type) where
  body : Raw
  err : Option Err
  deriving DecidableEq, Repr

/-- The method `client.list`, as a transition of the world behind the client. -/
structure ListClient (σ τ Raw Err : Type) where
  list : σ → String → Option (ListOpt τ) → ListResp τ Raw Err × σ

/-- The methods of `client.credentials` the service calls. Each takes the
resource discriminator, the consumer reference and the entity or key. -/
structure CredentialService (σ Raw LKQ Err : Type) where
  Create : σ → String → Option String → Option LKQ → CredResp Raw Err × σ
  Get : σ → String → Option String → Option String → CredResp Raw Err × σ
  Update : σ → String → Option String → Option LKQ → CredResp Raw Err × σ

/-- The two `encoding/json` operations the service uses: `RawMessage.MarshalJSON`
and `json.Unmarshal` into a fresh `LimitKeyQuota`. -/
structure Codec (Raw LKQ Err : Type) where
  MarshalJSON : Raw → Except Err Raw
  Unmarshal : Raw → Except Err LKQ

/-- One call made to the client, with its arguments (and, for a page fetch, the
response). -/
inductive Call (τ Raw LKQ Err : Type) where
  | list (path : String) (opt : Option (ListOpt τ)) (resp : ListResp τ Raw Err)
  | create (credType : String) (consumer : Option String) (credential : Option LKQ)
  | get (credType : String) (consumer : Option String) (keyOrID : Option String)
  | update (credType : String) (consumer : Option String) (credential : Option LKQ)
  deriving DecidableEq, Repr

/-- The world a service method runs in: the state behind the client and the
calls made to the client so far, oldest first. -/
structure World (σ τ Raw LKQ Err : Type) where
  st : σ
  trace : List (Call τ Raw LKQ Err)
  deriving DecidableEq, Repr

section Service

variable {σ τ Raw LKQ Err : Type}

/-- The call `s.client.list(ctx, path, opt)`. -/
def ListClient.call (client : ListClient σ τ Raw Err) (w : World σ τ Raw LKQ Err)
    (path : String) (opt : Option (ListOpt τ)) : ListResp τ Raw Err × World σ τ Raw LKQ Err :=
  let r := client.list w.st path opt
  (r.1, { st := r.2, trace := w.trace ++ [Call.list path opt r.1] })

/-- The call `s.client.credentials.Create(ctx, credType, consumer, credential)`. -/
def CredentialService.callCreate (cr : CredentialService σ Raw LKQ Err)
    (w : World σ τ Raw LKQ Err) (credType : String) (consumer : Option String)
    (credential : Option LKQ) : CredResp Raw Err × World σ τ Raw LKQ Err :=
  let r := cr.Create w.st credType consumer credential
  (r.1, { st := r.2, trace := w.trace ++ [Call.create credType consumer credential] })

/-- The call `s.client.credentials.Get(ctx, credType, consumer, keyOrID)`. -/
def CredentialService.callGet (cr : CredentialService σ Raw LKQ Err)
    (w : World σ τ Raw LKQ Err) (credType : String) (consumer : Option String)
    (keyOrID : Option String) : CredResp Raw Err × World σ τ Raw LKQ Err :=
  let r := cr.Get w.st credType consumer keyOrID
  (r.1, { st := r.2, trace := w.trace ++ [Call.get credType consumer keyOrID] })

/-- The call `s.client.credentials.Update(ctx, credType, consumer, credential)`. -/
def CredentialService.callUpdate (cr : CredentialService σ Raw LKQ Err)
    (w : World σ τ Raw LKQ Err) (credType : String) (consumer : Option String)
    (credential : Option LKQ) : CredResp Raw Err × World σ τ Raw LKQ Err :=
  let r := cr.Update w.st credType consumer credential
  (r.1, { st := r.2, trace := w.trace ++ [Call.update credType consumer credential] })

/-! ## `kong/limit_key_quota_service.go` -/

/-- What `Create`, `Get` and `Update` return: `(*LimitKeyQuota, error)`. -/
abbrev EntityResult (LKQ Err : Type) := Option LKQ × Option Err

/-- What `List` and `ListForConsumer` return: `([]*LimitKeyQuota, *ListOpt, error)`. -/
abbrev PageResult (τ LKQ Err : Type) := Slice LKQ × Option (ListOpt τ) × Option Err

/-- What `ListAll` returns: `([]*LimitKeyQuota, error)`. -/
abbrev AllResult (LKQ Err : Type) := Slice LKQ × Option Err

/-- The method `LimitKeyQuotaService.Create`. -/
def LimitKeyQuotaService.Create (cr : CredentialService σ Raw LKQ Err) (j : Codec Raw LKQ Err)
    (w : World σ τ Raw LKQ Err) (consumerUsernameOrID : Option String)
    (limitKeyQuota : Option LKQ) : EntityResult LKQ Err × World σ τ Raw LKQ Err :=
  let (cred, w) := cr.callCreate w "limit-key-quota" consumerUsernameOrID limitKeyQuota
  match cred.err with
  | some err => ((none, some err), w)
  | none =>
    match j.Unmarshal cred.body with
    | .error err => ((none, some err), w)
    | .ok createdLimitKeyQuota => ((some createdLimitKeyQuota, none), w)

/-- The method `LimitKeyQuotaService.Get`. -/
def LimitKeyQuotaService.Get (cr : CredentialService σ Raw LKQ Err) (j : Codec Raw LKQ Err)
    (w : World σ τ Raw LKQ Err) (consumerUsernameOrID keyOrID : Option String) :
    EntityResult LKQ Err × World σ τ Raw LKQ Err :=
  let (cred, w) := cr.callGet w "limit-key-quota" consumerUsernameOrID keyOrID
  match cred.err with
  | some err => ((none, some err), w)
  | none =>
    match j.Unmarshal cred.body with
    | .error err => ((none, some err), w)
    | .ok limitKeyQuota => ((some limitKeyQuota, none), w)

/-- The method `LimitKeyQuotaService.Update`. -/
def LimitKeyQuotaService.Update (cr : CredentialService σ Raw LKQ Err) (j : Codec Raw LKQ Err)
    (w : World σ τ Raw LKQ Err) (consumerUsernameOrID : Option String)
    (limitKeyQuota : Option LKQ) : EntityResult LKQ Err × World σ τ Raw LKQ Err :=
  let (cred, w) := cr.callUpdate w "limit-key-quota" consumerUsernameOrID limitKeyQuota
  match cred.err with
  | some err => ((none, some err), w)
  | none =>
    match j.Unmarshal cred.body with
    | .error err => ((none, some err), w)
    | .ok updatedLimitKeyQuota => ((some updatedLimitKeyQuota, none), w)

/-- The loop `for _, object := range data` shared, word for word, by `List` and
`ListForConsumer`: the objects still to visit and the slice `limitKeyQuotas`
built so far. An error leaves the loop (and the method) at once. -/
def decodeLoop (j : Codec Raw LKQ Err) : List Raw → Slice LKQ → Except Err (Slice LKQ)
  | [], limitKeyQuotas => .ok limitKeyQuotas
  | object :: rest, limitKeyQuotas =>
    match j.MarshalJSON object with
    | .error err => .error err
    | .ok b =>
      match j.Unmarshal b with
      | .error err => .error err
      | .ok limitKeyQuota => decodeLoop j rest (limitKeyQuotas.append [limitKeyQuota])

/-- The method `LimitKeyQuotaService.List`. -/
def LimitKeyQuotaService.List (client : ListClient σ τ Raw Err) (j : Codec Raw LKQ Err)
    (w : World σ τ Raw LKQ Err) (opt : Option (ListOpt τ)) :
    PageResult τ LKQ Err × World σ τ Raw LKQ Err :=
  let (resp, w) := client.call w "/limit-key-quotas" opt
  match resp.err with
  | some err => ((.nil, none, some err), w)
  | none =>
    match decodeLoop j resp.data .nil with
    | .error err => ((.nil, none, some err), w)
    | .ok limitKeyQuotas => ((limitKeyQuotas, resp.next, none), w)

/-- The loop of `ListAll`, with a bound on the number of iterations: `none`
when the bound is used up before the loop ends. The state is the world, the
slice `limitKeyQuotas` and the cursor `opt`. -/
def LimitKeyQuotaService.ListAll.loop (client : ListClient σ τ Raw Err) (j : Codec Raw LKQ Err) :
    Nat → World σ τ Raw LKQ Err → Slice LKQ → Option (ListOpt τ) →
      Option (AllResult LKQ Err × World σ τ Raw LKQ Err)
  | _, w, limitKeyQuotas, none => some ((limitKeyQuotas, none), w)
  | 0, _, _, some _ => none
  | fuel + 1, w, limitKeyQuotas, some opt =>
    match LimitKeyQuotaService.List client j w (some opt) with
    | ((_, _, some err), w) => some ((.nil, some err), w)
    | ((data, opt, none), w) =>
      LimitKeyQuotaService.ListAll.loop client j fuel w (limitKeyQuotas.append data.toList) opt

/-- The method `LimitKeyQuotaService.ListAll`. The constant `pageSize` is
declared in another file of the package and is a parameter. -/
def LimitKeyQuotaService.ListAll [Inhabited τ] (client : ListClient σ τ Raw Err)
    (j : Codec Raw LKQ Err) (pageSize : Int) (fuel : Nat) (w : World σ τ Raw LKQ Err) :
    Option (AllResult LKQ Err × World σ τ Raw LKQ Err) :=
  LimitKeyQuotaService.ListAll.loop client j fuel w .nil (some (ListOpt.ofSize pageSize))

/-- The method `LimitKeyQuotaService.ListForConsumer`. Dereferencing a nil
`consumerUsernameOrID` panics before anything is requested: the result is
`none`. -/
def LimitKeyQuotaService.ListForConsumer (client : ListClient σ τ Raw Err)
    (j : Codec Raw LKQ Err) (w : World σ τ Raw LKQ Err) (consumerUsernameOrID : Option String)
    (opt : Option (ListOpt τ)) : Option (PageResult τ LKQ Err × World σ τ Raw LKQ Err) :=
  match consumerUsernameOrID with
  | none => none
  | some consumer =>
    let (resp, w) := client.call w ("/consumers/" ++ consumer ++ "/limit-key-quota") opt
    match resp.err with
    | some err => some ((.nil, none, some err), w)
    | none =>
      match decodeLoop j resp.data .nil with
      | .error err => some ((.nil, none, some err), w)
      | .ok limitKeyQuotas => some ((limitKeyQuotas, resp.next, none), w)

end Service

/-! ## Vocabulary of the statements -/

section Vocabulary

variable {σ τ Raw LKQ Err : Type}

/-- The decoding of one transport item as the listing loop does it: marshal the
raw message again, then unmarshal the bytes into a fresh entity. -/
def Codec.decode (j : Codec Raw LKQ Err) (object : Raw) : Except Err LKQ :=
  match j.MarshalJSON object with
  | .error err => .error err
  | .ok b => j.Unmarshal b

/-- The paths of the page fetches recorded in a trace, oldest first. -/
def requestedPaths : List (Call τ Raw LKQ Err) → List String
  | [] => []
  | .list path _ _ :: rest => path :: requestedPaths rest
  | _ :: rest => requestedPaths rest

/-- The number of items each page fetch recorded in a trace delivered. -/
def fetchedSizes : List (Call τ Raw LKQ Err) → List Nat
  | [] => []
  | .list _ _ resp :: rest => resp.data.length :: fetchedSizes rest
  | _ :: rest => fetchedSizes rest

/-- A finite run of successive `List` calls that all succeed: it starts in
world `w` with cursor `opt`, every later call uses the cursor the call before
it returned, and the call that returns no cursor is the last. `pages` are the
item lists of the calls in order, and the run ends in world `w2`. -/
inductive FetchChain (client : ListClient σ τ Raw Err) (j : Codec Raw LKQ Err) :
    World σ τ Raw LKQ Err → ListOpt τ → List (List LKQ) → World σ τ Raw LKQ Err → Prop where
  | last {w w1 : World σ τ Raw LKQ Err} {opt : ListOpt τ} {data : Slice LKQ} :
      LimitKeyQuotaService.List client j w (some opt) = ((data, none, none), w1) →
      FetchChain client j w opt [data.toList] w1
  | more {w w1 w2 : World σ τ Raw LKQ Err} {opt next : ListOpt τ} {data : Slice LKQ}
      {pages : List (List LKQ)} :
      LimitKeyQuotaService.List client j w (some opt) = ((data, some next, none), w1) →
      FetchChain client j w1 next pages w2 →
      FetchChain client j w opt (data.toList :: pages) w2

/-- A finite run of successive `List` calls whose last call fails with `e`:
the `pages` are the item lists of the successful calls before it, each of which
returned the cursor of the next call, and `w2` is the world right after the
failing call. -/
inductive FailChain (client : ListClient σ τ Raw Err) (j : Codec Raw LKQ Err) :
    World σ τ Raw LKQ Err → ListOpt τ → List (List LKQ) → Err → World σ τ Raw LKQ Err → Prop where
  | fail {w w1 : World σ τ Raw LKQ Err} {opt : ListOpt τ} {data : Slice LKQ}
      {next : Option (ListOpt τ)} {e : Err} :
      LimitKeyQuotaService.List client j w (some opt) = ((data, next, some e), w1) →
      FailChain client j w opt [] e w1
  | more {w w1 w2 : World σ τ Raw LKQ Err} {opt next : ListOpt τ} {data : Slice LKQ}
      {pages : List (List LKQ)} {e : Err} :
      LimitKeyQuotaService.List client j w (some opt) = ((data, some next, none), w1) →
      FailChain client j w1 next pages e w2 →
      FailChain client j w opt (data.toList :: pages) e w2

/-- The contract of `Create`, `Get` and `Update` for one call: `resp` is what
the credentials helper answers in world `w`, `call` the call the method has to
make, and `out` what the method returns. -/
def EntityContract (j : Codec Raw LKQ Err) (w : World σ τ Raw LKQ Err)
    (resp : CredResp Raw Err × σ) (call : Call τ Raw LKQ Err)
    (out : EntityResult LKQ Err × World σ τ Raw LKQ Err) : Prop :=
  out.2 = { st := resp.2, trace := w.trace ++ [call] } ∧
  (∀ e, resp.1.err = some e → out.1 = (none, some e)) ∧
  (∀ e, resp.1.err = none → j.Unmarshal resp.1.body = .error e → out.1 = (none, some e)) ∧
  (∀ v, resp.1.err = none → j.Unmarshal resp.1.body = .ok v → out.1 = (some v, none)) ∧
  (out.1.1.isSome = !out.1.2.isSome)

end Vocabulary

/-! ## Concrete collaborators -/

/-- A server holding `items` in a fixed order. A request with cursor
`(Size, Offset)` is answered with the `Size` items from position `Offset` on,
and with the cursor of the following page unless this page reaches the end of
the collection; a request without cursor is answered with everything. It
never fails and has no state. -/
def pagedServer {Raw Err : Type} (items : List Raw) : ListClient Unit Nat Raw Err where
  list := fun s _ opt =>
    match opt with
    | none => ({ data := items, next := none, err := none }, s)
    | some o =>
      ({ data := (items.drop o.Offset).take o.Size.toNat,
         next :=
           if o.Offset + o.Size.toNat < items.length then
             some { Size := o.Size, Offset := o.Offset + o.Size.toNat }
           else none,
         err := none }, s)

/-- A codec under which every item decodes to itself. -/
def plainCodec {Raw Err : Type} : Codec Raw Raw Err where
  MarshalJSON := fun object => .ok object
  Unmarshal := fun b => .ok b

/-- A client that answers its calls from a script, one response per call in
order, whatever is asked; the state counts the calls answered. -/
def scriptedClient {τ Raw Err : Type} (script : List (ListResp τ Raw Err))
    (otherwise : ListResp τ Raw Err) : ListClient Nat τ Raw Err where
  list := fun s _ _ => (script.getD s otherwise, s + 1)

/-- A codec over numbers: 13 cannot be marshalled, numbers from 100 on cannot
be unmarshalled, every other number decodes to its double. -/
def numberCodec : Codec Nat Nat String where
  MarshalJSON := fun object => if object = 13 then .error "marshal" else .ok object
  Unmarshal := fun b => if b < 100 then .ok (2 * b) else .error "unmarshal"

/-- The answer of `countingCredentials` in state `s` to a call for `consumer`. -/
def countingAnswer (s : Nat) (consumer : Option String) : CredResp Nat String × Nat :=
  match consumer with
  | some "down" => ({ body := s, err := some "unreachable" }, s + 1)
  | _ => ({ body := s, err := none }, s + 1)

/-- A credentials helper over numbers: a call for consumer `down` fails, any
other call answers with the number of calls answered before. -/
def countingCredentials : CredentialService Nat Nat Nat String where
  Create := fun s _ consumer _ => countingAnswer s consumer
  Get := fun s _ consumer _ => countingAnswer s consumer
  Update := fun s _ consumer _ => countingAnswer s consumer

/-- A world in which nothing has been requested yet. -/
def freshWorld {σ τ Raw LKQ Err : Type} (s : σ) : World σ τ Raw LKQ Err :=
  { st := s, trace := [] }

/-- The paged server holding the numbers 1, 2, 3. -/
def threeItems : ListClient Unit Nat Nat String := pagedServer [1, 2, 3]

/-- The world after the first page of `threeItems` has been fetched with pages
of two items. -/
def threeItemsWorld1 : World Unit Nat Nat Nat String :=
  { st := (),
    trace :=
      [Call.list "/limit-key-quotas" (some { Size := 2, Offset := 0 })
        { data := [1, 2], next := some { Size := 2, Offset := 2 }, err := none }] }

/-- The world after both pages of `threeItems` have been fetched. -/
def threeItemsWorld2 : World Unit Nat Nat Nat String :=
  { st := (),
    trace :=
      [Call.list "/limit-key-quotas" (some { Size := 2, Offset := 0 })
        { data := [1, 2], next := some { Size := 2, Offset := 2 }, err := none },
       Call.list "/limit-key-quotas" (some { Size := 2, Offset := 2 })
        { data := [3], next := none, err := none }] }

/-- The response every scripted client below gives once its script is used up. -/
def noMore : ListResp Nat Nat String := { data := [], next := none, err := none }

/-- A client whose first page succeeds and whose second page fails. -/
def secondPageFails : ListClient Nat Nat Nat String :=
  scriptedClient
    [{ data := [1, 2], next := some { Size := 5, Offset := 7 }, err := none },
     { data := [3], next := none, err := some "boom" }] noMore

/-- The world after the first page of `secondPageFails` has been fetched. -/
def secondPageFailsWorld1 : World Nat Nat Nat Nat String :=
  { st := 1,
    trace :=
      [Call.list "/limit-key-quotas" (some { Size := 5, Offset := 0 })
        { data := [1, 2], next := some { Size := 5, Offset := 7 }, err := none }] }

/-- The world after the second page of `secondPageFails` has been asked for. -/
def secondPageFailsWorld2 : World Nat Nat Nat Nat String :=
  { st := 2,
    trace :=
      [Call.list "/limit-key-quotas" (some { Size := 5, Offset := 0 })
        { data := [1, 2], next := some { Size := 5, Offset := 7 }, err := none },
       Call.list "/limit-key-quotas" (some { Size := 5, Offset := 7 })
        { data := [3], next := none, err := some "boom" }] }

/-- A client answering with one page of three items and a cursor. -/
def onePage : ListClient Nat Nat Nat String :=
  scriptedClient [{ data := [1, 2, 3], next := some { Size := 5, Offset := 9 }, err := none }] noMore

/-- A client answering with a page whose second item cannot be marshalled and
whose third item cannot be unmarshalled. -/
def badPage : ListClient Nat Nat Nat String :=
  scriptedClient [{ data := [1, 13, 200], next := some { Size := 5, Offset := 9 }, err := none }]
    noMore

/-- A client in front of an empty collection. -/
def emptyCollection : ListClient Nat Nat Nat String := scriptedClient [] noMore

/-- The strings a slice of pointers points to, in order; `none` when one of the
pointers is nil, since dereferencing it panics. -/
def derefAll : List (Option String) → Option (List String)
  | [] => some []
  | none :: _ => none
  | some s :: rest =>
    match derefAll rest with
    | none => none
    | some ss => some (s :: ss)

/-- A rendering helper of the type of `stringArrayToString`: the text `nil` for
the nil slice, otherwise the elements between brackets, separated by commas.
It dereferences every element without a nil check, so a nil element makes it
panic. -/
def derefJoin : Slice (Option String) → Option String
  | .nil => some "nil"
  | .of xs =>
    match derefAll xs with
    | none => none
    | some ss => some ("[ " ++ ", ".intercalate ss ++ " ]")

/-- A route with every field set; Hosts is the nil slice. -/
def sampleRoute : Route :=
  { CreatedAt := some 1, Hosts := .nil, ID := some "r1", Methods := .of [some "GET"],
    Paths := .of [some "/a", some "/b"], PreserveHost := some true,
    Protocols := .of [some "http"], RegexPriority := some (-7),
    Service := some { ID := some "svc" }, StripPath := some false, UpdatedAt := some 2 }

/-- A route with nothing set but its priority, and a service without ID. -/
def bareRoute : Route :=
  { CreatedAt := none, Hosts := .nil, ID := none, Methods := .nil, Paths := .nil,
    PreserveHost := none, Protocols := .nil, RegexPriority := some 120,
    Service := some { ID := none }, StripPath := none, UpdatedAt := none }

/-- A route whose Hosts slice holds one nil pointer. -/
def nilHostRoute : Route :=
  { CreatedAt := none, Hosts := .of [none], ID := some "r1", Methods := .of [some "GET"],
    Paths := .nil, PreserveHost := none, Protocols := .nil, RegexPriority := none,
    Service := none, StripPath := none, UpdatedAt := none }

/-! ## Theorems about `kong/route.go` -/

theorem Slice.len_eq_zero_iff {α : Type} (s : Slice α) :
    s.len = 0 ↔ s = .nil ∨ s = .of [] := by
  cases s with
  | nil => simp [Slice.len, Slice.toList]
  | of xs => cases xs <;> simp [Slice.len, Slice.toList]

/-- C3: `Route.Valid` is true exactly when one of Methods, Paths, Hosts has an
element, false exactly when all three are nil or empty, and it ignores every
other field. -/
theorem route_valid_iff (r : Route) :
    (r.Valid = true ↔ (0 < r.Methods.len ∨ 0 < r.Paths.len ∨ 0 < r.Hosts.len)) ∧
    (r.Valid = false ↔
      ((r.Methods = .nil ∨ r.Methods = .of []) ∧ (r.Paths = .nil ∨ r.Paths = .of []) ∧
        (r.Hosts = .nil ∨ r.Hosts = .of []))) ∧
    (∀ r2 : Route, r2.Methods = r.Methods → r2.Paths = r.Paths → r2.Hosts = r.Hosts →
      r2.Valid = r.Valid) := by
  refine ⟨?_, ?_, ?_⟩
  · simp only [Route.Valid]
    by_cases hm : r.Methods.len = 0 <;> by_cases hp : r.Paths.len = 0 <;>
      by_cases hh : r.Hosts.len = 0 <;> simp [hm, hp, hh] <;> omega
  · rw [← Slice.len_eq_zero_iff, ← Slice.len_eq_zero_iff, ← Slice.len_eq_zero_iff]
    simp only [Route.Valid]
    by_cases hm : r.Methods.len = 0 <;> by_cases hp : r.Paths.len = 0 <;>
      by_cases hh : r.Hosts.len = 0 <;> simp [hm, hp, hh]
  · intro r2 h1 h2 h3
    simp only [Route.Valid, h1, h2, h3]

theorem Buffer.writeByte_eq (buf : Buffer) (c : Char) :
    buf.WriteByte c = buf ++ String.singleton c := by
  simp only [Buffer.WriteByte]
  apply String.ext
  simp [String.singleton]

theorem strconv.Itoa_eq_toString (n : Int) : strconv.Itoa n = toString n := by
  cases n <;> rfl

/-- C10: when the three calls of `stringArrayToString` return, `Route.String`
returns the bracketed, blank-separated rendering of ID, Methods, Hosts, Paths,
PreserveHost, StripPath, RegexPriority and the service ID, in that order, with
`nil` for an absent pointer, `true` or `false` for a boolean and the decimal
digits for the priority; it panics exactly when one of the three calls does;
Protocols, CreatedAt and UpdatedAt do not influence it. -/
theorem route_string_eq (f : Slice (Option String) → Option String) (r : Route) :
    (∀ m h p : String, f r.Methods = some m → f r.Hosts = some h → f r.Paths = some p →
      r.String f =
        some ("[ " ++ r.ID.getD "nil" ++ " " ++ m ++ " " ++ h ++ " " ++ p ++ " "
          ++ (r.PreserveHost.map fun b => if b = true then "true" else "false").getD "nil" ++ " "
          ++ (r.StripPath.map fun b => if b = true then "true" else "false").getD "nil" ++ " "
          ++ (r.RegexPriority.map fun n => toString n).getD "nil" ++ " "
          ++ (r.Service.bind Service.ID).getD "nil" ++ " ]")) ∧
    (r.String f = none ↔ (f r.Methods = none ∨ f r.Hosts = none ∨ f r.Paths = none)) ∧
    (∀ (p : Slice (Option String)) (c u : Option Int),
      Route.String f { r with Protocols := p, CreatedAt := c, UpdatedAt := u } = r.String f) := by
  refine ⟨?_, ?_, fun p c u => rfl⟩
  · intro m h p hm hh hp
    simp only [Route.String, hm, hh, hp, Buffer.writeByte_eq, Buffer.WriteString,
      strconv.Itoa_eq_toString, strconv.FormatBool, Option.some.injEq]
    apply String.ext
    rcases r with ⟨_, _, rid, _, _, ph, _, rp, svc, sp, _⟩
    cases rid <;> cases ph <;> cases sp <;> cases rp <;> cases svc <;>
      simp [String.singleton, Option.bind] <;>
      (split <;> simp_all)
  · simp only [Route.String]
    cases f r.Methods <;> cases f r.Hosts <;> cases f r.Paths <;> simp

/-- C10, as first stated, fails: with a helper that dereferences the elements,
`Route.String` panics on a route whose Hosts slice holds a nil pointer. -/
theorem route_string_panics_on_nil_element :
    nilHostRoute.String derefJoin = none := by
  decide

/-! ## Theorems about `kong/limit_key_quota_service.go` -/

section ServiceTheorems

variable {σ τ Raw LKQ Err : Type}

theorem Slice.toList_append {α : Type} (s : Slice α) (ys : List α) :
    (s.append ys).toList = s.toList ++ ys := by
  cases ys with
  | nil => simp [Slice.append]
  | cons y rest => simp [Slice.append, Slice.toList]

theorem Slice.toList_nil_append {α : Type} (ys : List α) :
    (Slice.nil.append ys).toList = ys := by
  rw [Slice.toList_append]
  simp [Slice.toList]

theorem Slice.append_append {α : Type} (s : Slice α) (xs ys : List α) :
    (s.append xs).append ys = s.append (xs ++ ys) := by
  cases xs with
  | nil => simp [Slice.append]
  | cons x xs =>
    cases ys with
    | nil => simp [Slice.append]
    | cons y ys => simp [Slice.append, Slice.toList]

theorem decodeLoop_ok (j : Codec Raw LKQ Err) :
    ∀ (items : List Raw) (acc : Slice LKQ), (∀ x ∈ items, ∃ v, j.decode x = .ok v) →
      ∃ ds : List LKQ, decodeLoop j items acc = .ok (acc.append ds) ∧
        items.map j.decode = ds.map Except.ok := by
  intro items
  induction items with
  | nil => intro acc _; exact ⟨[], by simp [decodeLoop, Slice.append], by simp⟩
  | cons x rest ih =>
    intro acc h
    obtain ⟨v, hv⟩ := h x (by simp)
    have hrest : ∀ y ∈ rest, ∃ v, j.decode y = .ok v := fun y hy => h y (by simp [hy])
    simp only [Codec.decode] at hv
    cases hm : j.MarshalJSON x with
    | error e => simp [hm] at hv
    | ok b =>
      simp only [hm] at hv
      obtain ⟨ds, hds, hmap⟩ := ih (acc.append [v]) hrest
      refine ⟨v :: ds, ?_, ?_⟩
      · simp only [decodeLoop, hm, hv, hds, Slice.append_append]
        simp
      · simp [Codec.decode, hm, hv, hmap]

theorem decodeLoop_error (j : Codec Raw LKQ Err) :
    ∀ (pre : List Raw) (acc : Slice LKQ) (x : Raw) (post : List Raw) (e : Err),
      (∀ y ∈ pre, ∃ v, j.decode y = .ok v) → j.decode x = .error e →
      decodeLoop j (pre ++ x :: post) acc = .error e := by
  intro pre
  induction pre with
  | nil =>
    intro acc x post e _ hx
    simp only [Codec.decode] at hx
    cases hm : j.MarshalJSON x with
    | error e2 => simp [hm] at hx; simp [decodeLoop, hm, hx]
    | ok b => simp only [hm] at hx; simp [decodeLoop, hm, hx]
  | cons y rest ih =>
    intro acc x post e h hx
    obtain ⟨v, hv⟩ := h y (by simp)
    have hrest : ∀ z ∈ rest, ∃ v, j.decode z = .ok v := fun z hz => h z (by simp [hz])
    simp only [Codec.decode] at hv
    cases hm : j.MarshalJSON y with
    | error e2 => simp [hm] at hv
    | ok b =>
      simp only [hm] at hv
      simp only [List.cons_append, decodeLoop, hm, hv]
      exact ih _ x post e hrest hx

/-- C4: when the transport answers a page request with items that all decode,
`List` and `ListForConsumer` make exactly that one request, return the
decodings of the items in the order delivered (same length, nothing filtered or
moved) and return the transport's next cursor as it is. -/
theorem list_page_of_decodable (client : ListClient σ τ Raw Err) (j : Codec Raw LKQ Err)
    (w : World σ τ Raw LKQ Err) (opt : Option (ListOpt τ)) (items : List Raw)
    (next : Option (ListOpt τ)) (s2 : σ) :
    (client.list w.st "/limit-key-quotas" opt = ({ data := items, next := next, err := none }, s2) →
      (∀ x ∈ items, ∃ v, j.decode x = .ok v) →
      ∃ page : Slice LKQ,
        LimitKeyQuotaService.List client j w opt =
          ((page, next, none),
            { st := s2,
              trace := w.trace ++
                [Call.list "/limit-key-quotas" opt { data := items, next := next, err := none }] }) ∧
        page.len = items.length ∧ items.map j.decode = page.toList.map Except.ok) ∧
    (∀ consumer : String,
      client.list w.st ("/consumers/" ++ consumer ++ "/limit-key-quota") opt =
          ({ data := items, next := next, err := none }, s2) →
      (∀ x ∈ items, ∃ v, j.decode x = .ok v) →
      ∃ page : Slice LKQ,
        LimitKeyQuotaService.ListForConsumer client j w (some consumer) opt =
          some ((page, next, none),
            { st := s2,
              trace := w.trace ++
                [Call.list ("/consumers/" ++ consumer ++ "/limit-key-quota") opt
                  { data := items, next := next, err := none }] }) ∧
        page.len = items.length ∧ items.map j.decode = page.toList.map Except.ok) := by
  refine ⟨?_, ?_⟩
  · intro hresp hdec
    obtain ⟨ds, hds, hmap⟩ := decodeLoop_ok j items .nil hdec
    refine ⟨Slice.nil.append ds, ?_, ?_, ?_⟩
    · simp [LimitKeyQuotaService.List, ListClient.call, hresp, hds]
    · have := congrArg List.length hmap
      simp only [List.length_map] at this
      rw [Slice.len, Slice.toList_append]
      simp [Slice.toList, this]
    · rw [Slice.toList_append]
      simp [Slice.toList, hmap]
  · intro consumer hresp hdec
    obtain ⟨ds, hds, hmap⟩ := decodeLoop_ok j items .nil hdec
    refine ⟨Slice.nil.append ds, ?_, ?_, ?_⟩
    · simp [LimitKeyQuotaService.ListForConsumer, ListClient.call, hresp, hds]
    · have := congrArg List.length hmap
      simp only [List.length_map] at this
      rw [Slice.len, Slice.toList_append]
      simp [Slice.toList, this]
    · rw [Slice.toList_append]
      simp [Slice.toList, hmap]

/-- C5: when an item of the page fails to marshal or to unmarshal, `List` and
`ListForConsumer` return a nil slice, no cursor and the error of the first such
item, whatever came before it and whatever cursor the transport gave; when the
transport fails they return a nil slice, no cursor and the transport's error. -/
theorem list_page_failure (client : ListClient σ τ Raw Err) (j : Codec Raw LKQ Err)
    (w : World σ τ Raw LKQ Err) (opt : Option (ListOpt τ)) (path : String)
    (resp : ListResp τ Raw Err) (s2 : σ) (e : Err)
    (hresp : client.list w.st path opt = (resp, s2))
    (hfail : resp.err = some e ∨
      (resp.err = none ∧ ∃ (pre : List Raw) (x : Raw) (post : List Raw),
        resp.data = pre ++ x :: post ∧
        (∀ y ∈ pre, ∃ b v, j.MarshalJSON y = .ok b ∧ j.Unmarshal b = .ok v) ∧
        (j.MarshalJSON x = .error e ∨ ∃ b, j.MarshalJSON x = .ok b ∧ j.Unmarshal b = .error e))) :
    (path = "/limit-key-quotas" →
      LimitKeyQuotaService.List client j w opt =
        ((.nil, none, some e), { st := s2, trace := w.trace ++ [Call.list path opt resp] })) ∧
    (∀ consumer : String, path = "/consumers/" ++ consumer ++ "/limit-key-quota" →
      LimitKeyQuotaService.ListForConsumer client j w (some consumer) opt =
        some ((.nil, none, some e), { st := s2, trace := w.trace ++ [Call.list path opt resp] })) := by
  have key : resp.err = some e ∨ (resp.err = none ∧ decodeLoop j resp.data .nil = .error e) := by
    rcases hfail with h | ⟨hnone, pre, x, post, hdata, hpre, hx⟩
    · exact Or.inl h
    · refine Or.inr ⟨hnone, ?_⟩
      rw [hdata]
      apply decodeLoop_error
      · intro y hy
        obtain ⟨b, v, hb, hv⟩ := hpre y hy
        exact ⟨v, by simp [Codec.decode, hb, hv]⟩
      · rcases hx with hx | ⟨b, hb, hx⟩
        · simp [Codec.decode, hx]
        · simp [Codec.decode, hb, hx]
  refine ⟨?_, ?_⟩
  · intro hpath
    subst hpath
    rcases key with h | ⟨h1, h2⟩
    · simp [LimitKeyQuotaService.List, ListClient.call, hresp, h]
    · simp [LimitKeyQuotaService.List, ListClient.call, hresp, h1, h2]
  · intro consumer hpath
    subst hpath
    rcases key with h | ⟨h1, h2⟩
    · simp [LimitKeyQuotaService.ListForConsumer, ListClient.call, hresp, h]
    · simp [LimitKeyQuotaService.ListForConsumer, ListClient.call, hresp, h1, h2]

/-- C7: `List` requests the path `/limit-key-quotas`, and `ListForConsumer`
requests `/consumers/` followed by the consumer identifier as given and by
`/limit-key-quota`; both pass the cursor on as it is, in one request. -/
theorem list_request_paths (client : ListClient σ τ Raw Err) (j : Codec Raw LKQ Err)
    (w : World σ τ Raw LKQ Err) (opt : Option (ListOpt τ)) :
    (LimitKeyQuotaService.List client j w opt).2.trace =
        w.trace ++
          [Call.list "/limit-key-quotas" opt (client.list w.st "/limit-key-quotas" opt).1] ∧
    (∀ consumer : String, ∃ out,
      LimitKeyQuotaService.ListForConsumer client j w (some consumer) opt = some out ∧
      out.2.trace =
        w.trace ++
          [Call.list ("/consumers/" ++ consumer ++ "/limit-key-quota") opt
            (client.list w.st ("/consumers/" ++ consumer ++ "/limit-key-quota") opt).1]) := by
  refine ⟨?_, ?_⟩
  · simp only [LimitKeyQuotaService.List, ListClient.call]
    split
    · rfl
    · split <;> rfl
  · intro consumer
    simp only [LimitKeyQuotaService.ListForConsumer, ListClient.call]
    split
    · exact ⟨_, rfl, rfl⟩
    · split <;> exact ⟨_, rfl, rfl⟩

/-- C7, as first stated, fails: no single collection segment gives both the
path `List` requests and the path `ListForConsumer` requests for consumer
`alice`. -/
theorem list_paths_no_common_segment :
    ¬ ∃ collection : String,
      requestedPaths
          (LimitKeyQuotaService.List (pagedServer [1, 2, 3] : ListClient Unit Nat Nat String)
            (plainCodec : Codec Nat Nat String) (freshWorld ()) none).2.trace =
        ["/" ++ collection] ∧
      (LimitKeyQuotaService.ListForConsumer (pagedServer [1, 2, 3] : ListClient Unit Nat Nat String)
          (plainCodec : Codec Nat Nat String) (freshWorld ()) (some "alice") none).map
          (fun out => requestedPaths out.2.trace) =
        some ["/consumers/" ++ "alice" ++ "/" ++ collection] := by
  rintro ⟨collection, h1, h2⟩
  have e1 : requestedPaths
      (LimitKeyQuotaService.List (pagedServer [1, 2, 3] : ListClient Unit Nat Nat String)
        (plainCodec : Codec Nat Nat String) (freshWorld ()) none).2.trace =
      ["/limit-key-quotas"] := by decide
  have e2 : (LimitKeyQuotaService.ListForConsumer
      (pagedServer [1, 2, 3] : ListClient Unit Nat Nat String)
      (plainCodec : Codec Nat Nat String) (freshWorld ()) (some "alice") none).map
      (fun out => requestedPaths out.2.trace) = some ["/consumers/alice/limit-key-quota"] := by
    decide
  rw [e1] at h1
  rw [e2] at h2
  simp only [List.cons.injEq, and_true, Option.some.injEq, String.ext_iff, String.data_append]
    at h1 h2
  simp only [List.singleton_append, List.cons_append, List.nil_append, List.cons.injEq,
    true_and] at h1 h2
  rw [← h1] at h2
  exact absurd h2 (by decide)

/-- C8: `Create`, `Get` and `Update` each call the credentials helper once, with
the discriminator `limit-key-quota` and the caller's consumer reference and
entity or key as given; a failing call gives that error and no entity, a body
that does not decode gives the decoding error and no entity, and otherwise the
entity decoded from the body comes back with no error. Exactly one of entity
and error is present. -/
theorem entity_ops_contract (cr : CredentialService σ Raw LKQ Err) (j : Codec Raw LKQ Err)
    (w : World σ τ Raw LKQ Err) (consumer keyOrID : Option String) (entity : Option LKQ) :
    EntityContract j w (cr.Create w.st "limit-key-quota" consumer entity)
        (Call.create "limit-key-quota" consumer entity)
        (LimitKeyQuotaService.Create cr j w consumer entity) ∧
    EntityContract j w (cr.Get w.st "limit-key-quota" consumer keyOrID)
        (Call.get "limit-key-quota" consumer keyOrID)
        (LimitKeyQuotaService.Get cr j w consumer keyOrID) ∧
    EntityContract j w (cr.Update w.st "limit-key-quota" consumer entity)
        (Call.update "limit-key-quota" consumer entity)
        (LimitKeyQuotaService.Update cr j w consumer entity) := by
  refine ⟨?_, ?_, ?_⟩
  · simp only [EntityContract, LimitKeyQuotaService.Create, CredentialService.callCreate]
    cases h1 : (cr.Create w.st "limit-key-quota" consumer entity).1.err with
    | some e => simp
    | none =>
      cases h2 : j.Unmarshal (cr.Create w.st "limit-key-quota" consumer entity).1.body <;> simp
  · simp only [EntityContract, LimitKeyQuotaService.Get, CredentialService.callGet]
    cases h1 : (cr.Get w.st "limit-key-quota" consumer keyOrID).1.err with
    | some e => simp
    | none =>
      cases h2 : j.Unmarshal (cr.Get w.st "limit-key-quota" consumer keyOrID).1.body <;> simp
  · simp only [EntityContract, LimitKeyQuotaService.Update, CredentialService.callUpdate]
    cases h1 : (cr.Update w.st "limit-key-quota" consumer entity).1.err with
    | some e => simp
    | none =>
      cases h2 : j.Unmarshal (cr.Update w.st "limit-key-quota" consumer entity).1.body <;> simp

theorem listAll_loop_done (client : ListClient σ τ Raw Err) (j : Codec Raw LKQ Err) (fuel : Nat)
    (w : World σ τ Raw LKQ Err) (acc : Slice LKQ) :
    LimitKeyQuotaService.ListAll.loop client j fuel w acc none = some ((acc, none), w) := by
  cases fuel <;> simp [LimitKeyQuotaService.ListAll.loop]

theorem listAll_loop_step (client : ListClient σ τ Raw Err) (j : Codec Raw LKQ Err) (fuel : Nat)
    (w w1 : World σ τ Raw LKQ Err) (acc data : Slice LKQ) (opt : ListOpt τ)
    (next : Option (ListOpt τ))
    (h : LimitKeyQuotaService.List client j w (some opt) = ((data, next, none), w1)) :
    LimitKeyQuotaService.ListAll.loop client j (fuel + 1) w acc (some opt) =
      LimitKeyQuotaService.ListAll.loop client j fuel w1 (acc.append data.toList) next := by
  simp [LimitKeyQuotaService.ListAll.loop, h]

theorem listAll_loop_fail (client : ListClient σ τ Raw Err) (j : Codec Raw LKQ Err) (fuel : Nat)
    (w w1 : World σ τ Raw LKQ Err) (acc data : Slice LKQ) (opt : ListOpt τ)
    (next : Option (ListOpt τ)) (e : Err)
    (h : LimitKeyQuotaService.List client j w (some opt) = ((data, next, some e), w1)) :
    LimitKeyQuotaService.ListAll.loop client j (fuel + 1) w acc (some opt) =
      some ((.nil, some e), w1) := by
  simp [LimitKeyQuotaService.ListAll.loop, h]

theorem list_trace_length (client : ListClient σ τ Raw Err) (j : Codec Raw LKQ Err)
    (w : World σ τ Raw LKQ Err) (opt : Option (ListOpt τ)) :
    (LimitKeyQuotaService.List client j w opt).2.trace.length = w.trace.length + 1 := by
  simp only [LimitKeyQuotaService.List, ListClient.call]
  split
  · simp
  · split <;> simp

theorem listAll_loop_of_fetchChain (client : ListClient σ τ Raw Err) (j : Codec Raw LKQ Err)
    {w w2 : World σ τ Raw LKQ Err} {opt : ListOpt τ} {pages : List (List LKQ)}
    (h : FetchChain client j w opt pages w2) :
    w2.trace.length = w.trace.length + pages.length ∧
    ∀ (acc : Slice LKQ) (fuel : Nat), pages.length ≤ fuel →
      LimitKeyQuotaService.ListAll.loop client j fuel w acc (some opt) =
        some ((acc.append pages.flatten, none), w2) := by
  induction h with
  | @last w w1 opt data h =>
    refine ⟨?_, ?_⟩
    · have := list_trace_length client j w (some opt)
      rw [h] at this
      simpa using this
    · intro acc fuel hf
      cases fuel with
      | zero => simp at hf
      | succ f =>
        rw [listAll_loop_step client j f w w1 acc data opt none h, listAll_loop_done]
        simp
  | @more w w1 w2 opt next data pages h _ ih =>
    refine ⟨?_, ?_⟩
    · have := list_trace_length client j w (some opt)
      rw [h] at this
      simp only at this
      rw [ih.1, this]
      simp only [List.length_cons]
      omega
    · intro acc fuel hf
      cases fuel with
      | zero => simp at hf
      | succ f =>
        rw [listAll_loop_step client j f w w1 acc data opt (some next) h,
          ih.2 _ f (by simpa using hf), Slice.append_append]
        simp

theorem listAll_loop_of_failChain (client : ListClient σ τ Raw Err) (j : Codec Raw LKQ Err)
    {w w2 : World σ τ Raw LKQ Err} {opt : ListOpt τ} {pages : List (List LKQ)} {e : Err}
    (h : FailChain client j w opt pages e w2) :
    w2.trace.length = w.trace.length + pages.length + 1 ∧
    ∀ (acc : Slice LKQ) (fuel : Nat), pages.length + 1 ≤ fuel →
      LimitKeyQuotaService.ListAll.loop client j fuel w acc (some opt) =
        some ((.nil, some e), w2) := by
  induction h with
  | @fail w w1 opt data next e h =>
    refine ⟨?_, ?_⟩
    · have := list_trace_length client j w (some opt)
      rw [h] at this
      simpa using this
    · intro acc fuel hf
      cases fuel with
      | zero => simp at hf
      | succ f => exact listAll_loop_fail client j f w w1 acc data opt next e h
  | @more w w1 w2 opt next data pages e h _ ih =>
    refine ⟨?_, ?_⟩
    · have := list_trace_length client j w (some opt)
      rw [h] at this
      simp only at this
      rw [ih.1, this]
      simp only [List.length_cons]
      omega
    · intro acc fuel hf
      cases fuel with
      | zero => simp at hf
      | succ f =>
        rw [listAll_loop_step client j f w w1 acc data opt (some next) h]
        exact ih.2 _ f (by simpa using hf)

/-- C1: when the successive `List` calls, started with the cursor that carries
only the page-size hint and continued with each returned cursor, all succeed
and end with a call that returns no cursor, `ListAll` (given enough
iterations) makes exactly those calls, succeeds, and returns the items of the
pages concatenated in fetch order. -/
theorem listAll_of_fetchChain [Inhabited τ] (client : ListClient σ τ Raw Err)
    (j : Codec Raw LKQ Err) (pageSize : Int) (w w2 : World σ τ Raw LKQ Err)
    (pages : List (List LKQ))
    (h : FetchChain client j w (ListOpt.ofSize pageSize) pages w2) :
    w2.trace.length = w.trace.length + pages.length ∧
    ∀ fuel : Nat, pages.length ≤ fuel →
      ∃ all : Slice LKQ,
        LimitKeyQuotaService.ListAll client j pageSize fuel w = some ((all, none), w2) ∧
        all.toList = pages.flatten := by
  obtain ⟨hlen, hloop⟩ := listAll_loop_of_fetchChain client j h
  refine ⟨hlen, fun fuel hf => ⟨Slice.nil.append pages.flatten, ?_, ?_⟩⟩
  · exact hloop .nil fuel hf
  · rw [Slice.toList_append]
    simp [Slice.toList]

/-- C2: when one of the successive `List` calls fails, `ListAll` (given enough
iterations) returns a nil slice and the error of that first failing call, and
ends in the world right after it: nothing is requested after the failure and
none of the items of the earlier pages is returned. -/
theorem listAll_of_failChain [Inhabited τ] (client : ListClient σ τ Raw Err)
    (j : Codec Raw LKQ Err) (pageSize : Int) (w w2 : World σ τ Raw LKQ Err)
    (pages : List (List LKQ)) (e : Err)
    (h : FailChain client j w (ListOpt.ofSize pageSize) pages e w2) :
    w2.trace.length = w.trace.length + pages.length + 1 ∧
    ∀ fuel : Nat, pages.length + 1 ≤ fuel →
      LimitKeyQuotaService.ListAll client j pageSize fuel w = some ((.nil, some e), w2) := by
  obtain ⟨hlen, hloop⟩ := listAll_loop_of_failChain client j h
  exact ⟨hlen, fun fuel hf => hloop .nil fuel hf⟩

/-- C9: when the transport answers with no items, no cursor and no error,
`List` returns a slice of length 0, no cursor and no error; and `ListAll`,
whose first request is answered so, makes that one request only and returns a
slice of length 0 and no error. -/
theorem list_empty_collection [Inhabited τ] (client : ListClient σ τ Raw Err)
    (j : Codec Raw LKQ Err) (w : World σ τ Raw LKQ Err) (opt : Option (ListOpt τ)) (s2 : σ)
    (h : client.list w.st "/limit-key-quotas" opt = ({ data := [], next := none, err := none }, s2)) :
    (∃ page : Slice LKQ,
      LimitKeyQuotaService.List client j w opt =
        ((page, none, none),
          { st := s2,
            trace := w.trace ++
              [Call.list "/limit-key-quotas" opt { data := [], next := none, err := none }] }) ∧
      page.len = 0) ∧
    (∀ pageSize : Int, opt = some (ListOpt.ofSize pageSize) →
      ∀ fuel : Nat, 1 ≤ fuel →
        ∃ all : Slice LKQ,
          LimitKeyQuotaService.ListAll client j pageSize fuel w =
            some ((all, none),
              { st := s2,
                trace := w.trace ++
                  [Call.list "/limit-key-quotas" opt { data := [], next := none, err := none }] }) ∧
          all.len = 0) := by
  have hl : LimitKeyQuotaService.List client j w opt =
      (((.nil : Slice LKQ), none, none),
        { st := s2,
          trace := w.trace ++
            [Call.list "/limit-key-quotas" opt { data := [], next := none, err := none }] }) := by
    simp [LimitKeyQuotaService.List, ListClient.call, h, decodeLoop]
  refine ⟨⟨.nil, hl, rfl⟩, ?_⟩
  intro pageSize hopt fuel hf
  subst hopt
  refine ⟨.nil, ?_, rfl⟩
  cases fuel with
  | zero => simp at hf
  | succ f =>
    simp only [LimitKeyQuotaService.ListAll]
    rw [listAll_loop_step client j f w _ .nil .nil (ListOpt.ofSize pageSize) none hl,
      listAll_loop_done]
    simp [Slice.append, Slice.toList]

end ServiceTheorems

/-! ## `ListAll` against the paged server -/

theorem decodeLoop_plainCodec {α Err : Type} :
    ∀ (items : List α) (acc : Slice α),
      decodeLoop (plainCodec : Codec α α Err) items acc = .ok (acc.append items) := by
  intro items
  induction items with
  | nil => intro acc; simp [decodeLoop, Slice.append]
  | cons x rest ih =>
    intro acc
    simp only [decodeLoop, plainCodec, Slice.append_append]
    have := ih (acc.append [x])
    simp only [plainCodec, Slice.append_append] at this
    simpa using this

theorem list_pagedServer {α Err : Type} (items : List α) (p off : Nat)
    (w : World Unit Nat α α Err) :
    LimitKeyQuotaService.List (pagedServer items) plainCodec w
        (some { Size := (p : Int), Offset := off }) =
      ((Slice.nil.append ((items.drop off).take p),
        if off + p < items.length then some { Size := (p : Int), Offset := off + p } else none,
        none),
       { st := w.st,
         trace := w.trace ++
           [Call.list "/limit-key-quotas" (some { Size := (p : Int), Offset := off })
             { data := (items.drop off).take p,
               next :=
                 if off + p < items.length then some { Size := (p : Int), Offset := off + p }
                 else none,
               err := none }] }) := by
  simp [LimitKeyQuotaService.List, ListClient.call, pagedServer, decodeLoop_plainCodec]

theorem listAll_loop_pagedServer_last {α Err : Type} (items : List α) (p off : Nat)
    (hlt : ¬ off + p < items.length) (acc : Slice α) (w : World Unit Nat α α Err)
    (fuel : Nat) (hf : 1 ≤ fuel) :
    LimitKeyQuotaService.ListAll.loop (pagedServer items) plainCodec fuel w acc
        (some { Size := (p : Int), Offset := off }) =
      some ((acc.append (items.drop off), none),
        { st := w.st,
          trace := w.trace ++
            [Call.list "/limit-key-quotas" (some { Size := (p : Int), Offset := off })
              { data := (items.drop off).take p, next := none, err := none }] }) := by
  cases fuel with
  | zero => simp at hf
  | succ f =>
    rw [listAll_loop_step _ _ f w _ acc _ _ _ (list_pagedServer items p off w)]
    simp only [hlt, if_false, listAll_loop_done, Slice.toList_nil_append]
    rw [List.take_of_length_le (by simp; omega)]

theorem listAll_loop_pagedServer {α Err : Type} (items : List α) (p : Nat) (hp : 1 ≤ p) :
    ∀ (m off : Nat) (acc : Slice α) (w : World Unit Nat α α Err), items.length - off ≤ m →
      ∃ calls : List (Call Nat α α Err),
        calls.length = max 1 ((items.length - off + p - 1) / p) ∧
        ∀ fuel : Nat, calls.length ≤ fuel →
          LimitKeyQuotaService.ListAll.loop (pagedServer items) plainCodec fuel w acc
              (some { Size := (p : Int), Offset := off }) =
            some ((acc.append (items.drop off), none),
              { st := w.st, trace := w.trace ++ calls }) := by
  have last : ∀ (off : Nat) (acc : Slice α) (w : World Unit Nat α α Err),
      ¬ off + p < items.length →
      ∃ calls : List (Call Nat α α Err),
        calls.length = max 1 ((items.length - off + p - 1) / p) ∧
        ∀ fuel : Nat, calls.length ≤ fuel →
          LimitKeyQuotaService.ListAll.loop (pagedServer items) plainCodec fuel w acc
              (some { Size := (p : Int), Offset := off }) =
            some ((acc.append (items.drop off), none),
              { st := w.st, trace := w.trace ++ calls }) := by
    intro off acc w hlt
    refine ⟨[Call.list "/limit-key-quotas" (some { Size := (p : Int), Offset := off })
      { data := (items.drop off).take p, next := none, err := none }], ?_, ?_⟩
    · have : (items.length - off + p - 1) / p ≤ 1 := by
        rw [← Nat.lt_succ_iff, Nat.div_lt_iff_lt_mul (by omega)]
        omega
      simp only [List.length_singleton]
      omega
    · intro fuel hf
      exact listAll_loop_pagedServer_last items p off hlt acc w fuel (by simpa using hf)
  intro m
  induction m with
  | zero =>
    intro off acc w hm
    exact last off acc w (by omega)
  | succ m ih =>
    intro off acc w hm
    by_cases hlt : off + p < items.length
    · obtain ⟨calls, hlen, hrun⟩ := ih (off + p) (acc.append ((items.drop off).take p))
        { st := w.st,
          trace := w.trace ++
            [Call.list "/limit-key-quotas" (some { Size := (p : Int), Offset := off })
              { data := (items.drop off).take p,
                next := some { Size := (p : Int), Offset := off + p },
                err := none }] } (by omega)
      refine ⟨Call.list "/limit-key-quotas" (some { Size := (p : Int), Offset := off })
        { data := (items.drop off).take p,
          next := some { Size := (p : Int), Offset := off + p },
          err := none } :: calls, ?_, ?_⟩
      · have e1 : items.length - off + p - 1 = (items.length - (off + p) + p - 1) + p := by omega
        have e2 : 1 ≤ (items.length - (off + p) + p - 1) / p := by
          rw [Nat.le_div_iff_mul_le (by omega)]
          omega
        rw [List.length_cons, hlen, e1, Nat.add_div_right _ (by omega)]
        omega
      · intro fuel hf
        cases fuel with
        | zero => simp at hf
        | succ f =>
          rw [listAll_loop_step _ _ f w _ acc _ _ _ (list_pagedServer items p off w)]
          simp only [hlt, if_true, Slice.toList_nil_append]
          rw [hrun f (by simpa using hf), Slice.append_append, ← List.drop_drop p off items,
            List.take_append_drop]
          simp
    · exact last off acc w hlt

/-- C6: against a server that holds `n` items in order and serves them in
consecutive pages of `p >= 1` items, with no cursor on the page that reaches the
end, `ListAll` terminates, returns the `n` items in the server's order, and
makes exactly `ceil(n/p)` page fetches when `n > 0`; with 25 items and pages of
10 it makes three fetches, of 10, 10 and 5 items. -/
theorem listAll_pagedServer {α Err : Type} (items : List α) (p : Nat) (hp : 1 ≤ p)
    (w : World Unit Nat α α Err) :
    (∃ calls : List (Call Nat α α Err),
      (0 < items.length → calls.length = (items.length + p - 1) / p) ∧
      ∀ fuel : Nat, calls.length ≤ fuel →
        ∃ all : Slice α,
          LimitKeyQuotaService.ListAll (pagedServer items) plainCodec (p : Int) fuel w =
            some ((all, none), { st := w.st, trace := w.trace ++ calls }) ∧
          all.toList = items) ∧
    (LimitKeyQuotaService.ListAll (pagedServer (List.range 25) : ListClient Unit Nat Nat String)
        (plainCodec : Codec Nat Nat String) 10 3 (freshWorld ())).map
        (fun out => (out.1, fetchedSizes out.2.trace)) =
      some ((Slice.of (List.range 25), none), [10, 10, 5]) ∧
    LimitKeyQuotaService.ListAll (pagedServer (List.range 25) : ListClient Unit Nat Nat String)
        (plainCodec : Codec Nat Nat String) 10 2 (freshWorld ()) = none := by
  refine ⟨?_, by decide, by decide⟩
  obtain ⟨calls, hlen, hrun⟩ :=
    listAll_loop_pagedServer items p hp items.length 0 .nil w (by omega)
  refine ⟨calls, ?_, ?_⟩
  · intro hpos
    have : 1 ≤ (items.length + p - 1) / p := by
      rw [Nat.le_div_iff_mul_le (by omega)]
      omega
    rw [hlen]
    simp only [Nat.sub_zero]
    omega
  · intro fuel hf
    refine ⟨Slice.nil.append items, ?_, ?_⟩
    · have := hrun fuel hf
      simpa [LimitKeyQuotaService.ListAll, ListOpt.ofSize] using this
    · rw [Slice.toList_append]
      simp [Slice.toList]

/-! ## The theorems at concrete inputs -/

/-- Against the paged server holding 1, 2, 3 with pages of two items, the two
fetches form a chain, and `ListAll` returns 1, 2, 3 after them. -/
theorem listAll_of_fetchChain_witness :
    FetchChain threeItems plainCodec (freshWorld ()) (ListOpt.ofSize 2) [[1, 2], [3]]
        threeItemsWorld2 ∧
    threeItemsWorld2.trace.length = 2 ∧
    ∃ all : Slice Nat,
      LimitKeyQuotaService.ListAll threeItems plainCodec 2 2 (freshWorld ()) =
        some ((all, none), threeItemsWorld2) ∧
      all.toList = [1, 2, 3] :=
  have h1 : LimitKeyQuotaService.List threeItems plainCodec (freshWorld ())
      (some (ListOpt.ofSize 2)) =
      ((Slice.of [1, 2], some { Size := 2, Offset := 2 }, none), threeItemsWorld1) := by decide
  have h2 : LimitKeyQuotaService.List threeItems plainCodec threeItemsWorld1
      (some { Size := 2, Offset := 2 }) =
      ((Slice.of [3], none, none), threeItemsWorld2) := by decide
  have hc : FetchChain threeItems plainCodec (freshWorld ()) (ListOpt.ofSize 2) [[1, 2], [3]]
      threeItemsWorld2 := FetchChain.more h1 (FetchChain.last h2)
  ⟨hc, (listAll_of_fetchChain threeItems plainCodec 2 _ _ _ hc).1,
    (listAll_of_fetchChain threeItems plainCodec 2 _ _ _ hc).2 2 (by decide)⟩

/-- With a client whose second page fails, `ListAll` returns the nil slice and
the error of the second page; the items 2 and 4 of the first page are gone. -/
theorem listAll_of_failChain_witness :
    FailChain secondPageFails numberCodec (freshWorld 0) (ListOpt.ofSize 5) [[2, 4]] "boom"
        secondPageFailsWorld2 ∧
    LimitKeyQuotaService.ListAll secondPageFails numberCodec 5 2 (freshWorld 0) =
      some ((.nil, some "boom"), secondPageFailsWorld2) :=
  have h1 : LimitKeyQuotaService.List secondPageFails numberCodec (freshWorld 0)
      (some (ListOpt.ofSize 5)) =
      ((Slice.of [2, 4], some { Size := 5, Offset := 7 }, none), secondPageFailsWorld1) := by
    decide
  have h2 : LimitKeyQuotaService.List secondPageFails numberCodec secondPageFailsWorld1
      (some { Size := 5, Offset := 7 }) =
      ((Slice.nil, none, some "boom"), secondPageFailsWorld2) := by decide
  have hc : FailChain secondPageFails numberCodec (freshWorld 0) (ListOpt.ofSize 5) [[2, 4]]
      "boom" secondPageFailsWorld2 := FailChain.more h1 (FailChain.fail h2)
  ⟨hc, (listAll_of_failChain secondPageFails numberCodec 5 _ _ _ _ hc).2 2 (by decide)⟩

/-- A page of three decodable items comes back from `List` and from
`ListForConsumer` as three entities, with the cursor of the transport. -/
theorem list_page_of_decodable_witness :
    (∃ page : Slice Nat,
      LimitKeyQuotaService.List onePage numberCodec (freshWorld 0) none =
        ((page, some { Size := 5, Offset := 9 }, none),
          { st := 1,
            trace := [Call.list "/limit-key-quotas" none
              { data := [1, 2, 3], next := some { Size := 5, Offset := 9 }, err := none }] }) ∧
      page.len = 3 ∧ [1, 2, 3].map numberCodec.decode = page.toList.map Except.ok) ∧
    (∃ page : Slice Nat,
      LimitKeyQuotaService.ListForConsumer onePage numberCodec (freshWorld 0) (some "alice") none =
        some ((page, some { Size := 5, Offset := 9 }, none),
          { st := 1,
            trace := [Call.list "/consumers/alice/limit-key-quota" none
              { data := [1, 2, 3], next := some { Size := 5, Offset := 9 }, err := none }] }) ∧
      page.len = 3 ∧ [1, 2, 3].map numberCodec.decode = page.toList.map Except.ok) :=
  have hdec : ∀ x ∈ [1, 2, 3], ∃ v, numberCodec.decode x = Except.ok v := by
    intro x hx
    simp only [List.mem_cons, List.mem_singleton, List.not_mem_nil, or_false] at hx
    rcases hx with rfl | rfl | rfl <;> exact ⟨_, rfl⟩
  ⟨(list_page_of_decodable onePage numberCodec (freshWorld 0) none [1, 2, 3]
      (some { Size := 5, Offset := 9 }) 1).1 rfl hdec,
   (list_page_of_decodable onePage numberCodec (freshWorld 0) none [1, 2, 3]
      (some { Size := 5, Offset := 9 }) 1).2 "alice" rfl hdec⟩

/-- On a page whose second item cannot be marshalled, `List` gives up with that
item's error although the first item decoded and a cursor was supplied; and
when the transport fails, `ListForConsumer` returns the transport's error. -/
theorem list_page_failure_witness :
    LimitKeyQuotaService.List badPage numberCodec (freshWorld 0) none =
      ((.nil, none, some "marshal"),
        { st := 1,
          trace := [Call.list "/limit-key-quotas" none
            { data := [1, 13, 200], next := some { Size := 5, Offset := 9 }, err := none }] }) ∧
    LimitKeyQuotaService.ListForConsumer secondPageFails numberCodec
        (freshWorld 1 : World Nat Nat Nat Nat String) (some "alice") none =
      some ((.nil, none, some "boom"),
        { st := 2,
          trace := [Call.list "/consumers/alice/limit-key-quota" none
            { data := [3], next := none, err := some "boom" }] }) :=
  ⟨(list_page_failure badPage numberCodec (freshWorld 0) none "/limit-key-quotas"
      { data := [1, 13, 200], next := some { Size := 5, Offset := 9 }, err := none } 1 "marshal"
      rfl
      (Or.inr ⟨rfl, [1], 13, [200], rfl,
        by
          intro y hy
          simp only [List.mem_singleton] at hy
          subst hy
          exact ⟨1, 2, rfl, rfl⟩,
        Or.inl rfl⟩)).1 rfl,
   (list_page_failure secondPageFails numberCodec (freshWorld 1) none
      "/consumers/alice/limit-key-quota" { data := [3], next := none, err := some "boom" } 2
      "boom" rfl (Or.inl rfl)).2 "alice" rfl⟩

/-- Five items in pages of two: `ListAll` returns them all after three fetches. -/
theorem listAll_pagedServer_witness :
    ∃ calls : List (Call Nat Nat Nat String),
      (0 < [1, 2, 3, 4, 5].length → calls.length = ([1, 2, 3, 4, 5].length + 2 - 1) / 2) ∧
      ∀ fuel : Nat, calls.length ≤ fuel →
        ∃ all : Slice Nat,
          LimitKeyQuotaService.ListAll (pagedServer [1, 2, 3, 4, 5]) plainCodec ((2 : Nat) : Int)
              fuel (freshWorld ()) =
            some ((all, none),
              { st := (freshWorld () : World Unit Nat Nat Nat String).st,
                trace := (freshWorld () : World Unit Nat Nat Nat String).trace ++ calls }) ∧
          all.toList = [1, 2, 3, 4, 5] :=
  (listAll_pagedServer [1, 2, 3, 4, 5] 2 (by decide) (freshWorld ())).1

/-- In front of an empty collection `List` and `ListAll` return nothing, without
error, after one request. -/
theorem list_empty_collection_witness :
    (∃ page : Slice Nat,
      LimitKeyQuotaService.List emptyCollection numberCodec (freshWorld 0)
          (some (ListOpt.ofSize 10)) =
        ((page, none, none),
          { st := 1,
            trace := [Call.list "/limit-key-quotas" (some (ListOpt.ofSize 10)) noMore] }) ∧
      page.len = 0) ∧
    ∃ all : Slice Nat,
      LimitKeyQuotaService.ListAll emptyCollection numberCodec 10 1 (freshWorld 0) =
        some ((all, none),
          { st := 1,
            trace := [Call.list "/limit-key-quotas" (some (ListOpt.ofSize 10)) noMore] }) ∧
      all.len = 0 :=
  ⟨(list_empty_collection emptyCollection numberCodec (freshWorld 0) (some (ListOpt.ofSize 10)) 1
      rfl).1,
   (list_empty_collection emptyCollection numberCodec (freshWorld 0) (some (ListOpt.ofSize 10)) 1
      rfl).2 10 rfl 1 (by decide)⟩

/-- The three outcomes of the entity operations at concrete calls: a decoded
entity, a decoding error, and a failing call. -/
theorem entity_ops_contract_witness :
    (LimitKeyQuotaService.Create countingCredentials numberCodec
        (freshWorld 5 : World Nat Nat Nat Nat String) (some "bob") (some 7)).1 =
      (some 10, none) ∧
    (LimitKeyQuotaService.Get countingCredentials numberCodec
        (freshWorld 100 : World Nat Nat Nat Nat String) (some "bob") (some "key")).1 =
      (none, some "unmarshal") ∧
    (LimitKeyQuotaService.Update countingCredentials numberCodec
        (freshWorld 5 : World Nat Nat Nat Nat String) (some "down") (some 7)).1 =
      (none, some "unreachable") :=
  ⟨(entity_ops_contract countingCredentials numberCodec (freshWorld 5) (some "bob") none
      (some 7)).1.2.2.2.1 10 rfl rfl,
   (entity_ops_contract countingCredentials numberCodec (freshWorld 100) (some "bob")
      (some "key") none).2.1.2.2.1 "unmarshal" rfl rfl,
   (entity_ops_contract countingCredentials numberCodec (freshWorld 5) (some "down") none
      (some 7)).2.2.2.1 "unreachable" rfl⟩

/-- The rendering of two routes: one with every field set, a negative priority
and a nil Hosts slice, and one with nothing set but a positive priority. -/
theorem route_string_eq_witness :
    sampleRoute.String derefJoin = some "[ r1 [ GET ] nil [ /a, /b ] true false -7 svc ]" ∧
    bareRoute.String derefJoin = some "[ nil nil nil nil nil nil 120 nil ]" :=
  ⟨((route_string_eq derefJoin sampleRoute).1 "[ GET ]" "nil" "[ /a, /b ]" (by decide)
      (by decide) (by decide)).trans (by decide),
   ((route_string_eq derefJoin bareRoute).1 "nil" "nil" "nil" (by decide) (by decide)
      (by decide)).trans (by decide)⟩
